import Mathlib

/-!
Verification of the time-tracker aggregation module.

This file gives a shallow embedding of the pure computation core of the
time-tracker application (the local-storage variant in `src/App.jsx`, the
Supabase variant in `src/components/TimeTracker.jsx`, and the REST variant's
`validateTimeFormat`) and proves the specified properties about it.

Modelling conventions:
- JavaScript `Date` values built from `"YYYY-MM-DDTHH:MM"` strings are
  modelled by a calendar-date parser plus a time-of-day parser; a `Date`
  whose string does not parse is JavaScript's `Invalid Date`, and any
  number computed from it is `NaN`.  `NaN`-or-number results are modelled
  as `Option Int` with `none` standing for `NaN`.
- The environment is assumed to have a fixed UTC-like timezone with no
  daylight-saving transitions, so `setDate (getDate () + 1)` advances a
  timestamp by exactly 86400 seconds.
- Times come from `<input type="time">` (`HH:MM`, 00:00 to 23:59); the
  parser also accepts `HH:MM:SS` as the ISO date-time grammar does.
  Millisecond suffixes and the special `24:00` form are not modelled.
- JavaScript objects used as tag-to-minutes dictionaries are modelled as
  association lists in key-insertion order (`jsGet`/`jsSet`), matching
  object property enumeration order for string keys.
- `Array.prototype.sort` with a consistent numeric comparator is modelled
  by a stable merge sort on the comparator's key.  When some entry has an
  unparseable `date`/`start` (so the comparator would return `NaN` and the
  JavaScript result is implementation-defined), the model uses key 0; the
  ordering theorems therefore assume all timestamps parse.
-/

/-- One decimal digit character. -/
def digitChar (n : Nat) : Char := Char.ofNat (48 + n % 10)

/-- Numeric value of a digit character. -/
def digVal (c : Char) : Nat := c.toNat - 48

/-- Gregorian leap-year test, as used by JavaScript `Date`. -/
def isLeap (y : Nat) : Bool := y % 4 == 0 && (y % 100 != 0 || y % 400 == 0)

/-- Number of days in a month of a given year. -/
def daysInMonth (y m : Nat) : Nat :=
  if m == 2 then (if isLeap y then 29 else 28)
  else if m == 4 || m == 6 || m == 9 || m == 11 then 30
  else 31

/-- A calendar date (year, month 1-12, day 1-31). -/
structure YMD where
  y : Nat
  m : Nat
  d : Nat
deriving DecidableEq

/-- Parse a `"YYYY-MM-DD"` calendar date; `none` models the Invalid Date
result of `new Date` on a malformed or out-of-range date string. -/
def parseDate (s : String) : Option YMD :=
  match s.data with
  | [y1, y2, y3, y4, '-', m1, m2, '-', d1, d2] =>
      if y1.isDigit && y2.isDigit && y3.isDigit && y4.isDigit &&
         m1.isDigit && m2.isDigit && d1.isDigit && d2.isDigit then
        let y := ((digVal y1 * 10 + digVal y2) * 10 + digVal y3) * 10 + digVal y4
        let m := digVal m1 * 10 + digVal m2
        let d := digVal d1 * 10 + digVal d2
        if 1 ≤ m && m ≤ 12 && 1 ≤ d && d ≤ daysInMonth y m then some ⟨y, m, d⟩
        else none
      else none
  | _ => none

/-- Parse an `"HH:MM"` or `"HH:MM:SS"` time of day to seconds since
midnight; `none` models the Invalid Date result of `new Date` when the
time part of the string is malformed or out of range. -/
def parseTime (s : String) : Option Nat :=
  match s.data with
  | [h1, h2, ':', m1, m2] =>
      if h1.isDigit && h2.isDigit && m1.isDigit && m2.isDigit then
        let hh := digVal h1 * 10 + digVal h2
        let mm := digVal m1 * 10 + digVal m2
        if hh ≤ 23 && mm ≤ 59 then some (hh * 3600 + mm * 60) else none
      else none
  | [h1, h2, ':', m1, m2, ':', s1, s2] =>
      if h1.isDigit && h2.isDigit && m1.isDigit && m2.isDigit &&
         s1.isDigit && s2.isDigit then
        let hh := digVal h1 * 10 + digVal h2
        let mm := digVal m1 * 10 + digVal m2
        let ss := digVal s1 * 10 + digVal s2
        if hh ≤ 23 && mm ≤ 59 && ss ≤ 59 then
          some (hh * 3600 + mm * 60 + ss)
        else none
      else none
  | _ => none

/-- Serial day number of a calendar date (days since 1970-01-01, Howard
Hinnant's civil-from-days construction), mirroring the epoch arithmetic of
JavaScript `Date` in a DST-free zone. -/
def dayNumber (x : YMD) : Int :=
  let yi : Int := x.y
  let mi : Int := x.m
  let di : Int := x.d
  let y2 := if mi ≤ 2 then yi - 1 else yi
  let era := y2 / 400
  let yoe := y2 - era * 400
  let mp := (mi + 9) % 12
  let doy := (153 * mp + 2) / 5 + di - 1
  let doe := yoe * 365 + yoe / 4 - yoe / 100 + doy
  era * 146097 + doe - 719468

/-- The calendar day before a given date, as produced by
`date.setDate(date.getDate() - 1)`. -/
def predDay (x : YMD) : YMD :=
  if 1 < x.d then ⟨x.y, x.m, x.d - 1⟩
  else if 1 < x.m then ⟨x.y, x.m - 1, daysInMonth x.y (x.m - 1)⟩
  else ⟨x.y - 1, 12, 31⟩

/-- Step back `n` calendar days, as `date.setDate(date.getDate() - n)`
does. -/
def predIter : Nat → YMD → YMD
  | 0, x => x
  | n + 1, x => predIter n (predDay x)

/-- Two-digit zero-padded rendering, as in an ISO date string. -/
def pad2 (n : Nat) : String := String.mk [digitChar (n / 10), digitChar n]

/-- Four-digit zero-padded rendering, as in an ISO date string. -/
def pad4 (n : Nat) : String :=
  String.mk [digitChar (n / 1000), digitChar (n / 100), digitChar (n / 10), digitChar n]

/-- The date part of `toISOString()`: `"YYYY-MM-DD"`. -/
def isoOf (x : YMD) : String := pad4 x.y ++ "-" ++ pad2 x.m ++ "-" ++ pad2 x.d

/-- JavaScript `Math.round (num / den)` for a positive denominator `den`:
`floor (num / den + 1 / 2)`, computed exactly as `(2 * num + den) / (2 * den)`
with floor division. -/
def jsRoundDiv (num den : Int) : Int := (2 * num + den) / (2 * den)

/-- A stored time entry of the local-storage variant (`src/App.jsx`).
The source field `end` is a Lean keyword and is written `«end»`.
`duration` is the stored result of `calculateDuration`; `none` models a
stored `NaN`. -/
structure TimeEntry where
  id : Int
  date : String
  start : String
  «end» : String
  duration : Option Int
  description : String
  tag : String
deriving DecidableEq

/-- `calculateDuration` from `src/App.jsx` lines 31-41 (identical in
`src/components/TimeTracker.jsx` lines 80-90): build `Date`s for
`selectedDate` plus each time, add one day to the end when it is strictly
earlier than the start, and return the rounded minute difference.
`none` models the `NaN` produced when any part fails to parse. -/
def calculateDuration (selectedDate startT endT : String) : Option Int :=
  match parseDate selectedDate, parseTime startT, parseTime endT with
  | some x, some ts, some te =>
      let a : Int := dayNumber x * 86400 + ts
      let b : Int := dayNumber x * 86400 + te
      let b2 : Int := if b < a then b + 86400 else b
      some (jsRoundDiv (b2 - a) 60)
  | _, _, _ => none

/-- First property lookup in a JavaScript object modelled as an
association list: `m[k]`, with `none` for `undefined`. -/
def jsGet {α : Type} (m : List (String × α)) (k : String) : Option α :=
  (m.find? (fun p => p.1 == k)).map (fun p => p.2)

/-- Property assignment `m[k] = v`: update in place when the key exists,
append in insertion order otherwise. -/
def jsSet {α : Type} (m : List (String × α)) (k : String) (v : α) : List (String × α) :=
  if m.any (fun p => p.1 == k) then
    m.map (fun p => if p.1 == k then (k, v) else p)
  else m ++ [(k, v)]

/-- The numeric value of `m[k] || 0` when values are NaN-or-number:
`undefined` and `NaN` are falsy and give `0`. -/
def getVal (m : List (String × Option Int)) (k : String) : Int :=
  (Option.join (jsGet m k)).getD 0

/-- One step `m[k] = (m[k] || 0) + v` of the tag-totals accumulation,
where `v` may be `NaN`. -/
def upsertAdd (m : List (String × Option Int)) (k : String) (v : Option Int) :
    List (String × Option Int) :=
  jsSet m k (v.map (fun d => getVal m k + d))

/-- Accumulate a list of key-value pairs into a totals object by
`upsertAdd`; shared shape of the daily and weekly accumulation loops. -/
def accList (acc : List (String × Option Int)) (l : List (String × Option Int)) :
    List (String × Option Int) :=
  l.foldl (fun a p => upsertAdd a p.1 p.2) acc

/-- `getEntriesForDate` from `src/App.jsx` lines 105-107: filter the
entries whose `date` field is string-equal to the given date. -/
def getEntriesForDate (entries : List TimeEntry) (date : String) : List TimeEntry :=
  entries.filter (fun e => e.date == date)

/-- `getTotalsByTag` from `src/App.jsx` lines 109-116: sum `duration`
per `tag` over the entries of one date. -/
def getTotalsByTag (entries : List TimeEntry) (date : String) :
    List (String × Option Int) :=
  (getEntriesForDate entries date).foldl (fun m e => upsertAdd m e.tag e.duration) []

/-- The seven ISO date strings built by the loop in `getWeeklyAverages`
(`src/App.jsx` lines 120-125): today and the six preceding days, oldest
first.  `today` is the current clock date (`new Date()`) made explicit. -/
def last7Days (today : YMD) : List String :=
  ((List.range 7).reverse).map (fun i => isoOf (predIter i today))

/-- `getWeeklyAverages` from `src/App.jsx` lines 118-141: accumulate each
day's `getTotalsByTag` into weekly totals, then round each total divided
by 7.  The ambient `new Date()` clock date is the explicit `today`
argument; the ambient `entries` state is the explicit list argument. -/
def getWeeklyAverages (entries : List TimeEntry) (today : YMD) :
    List (String × Option Int) :=
  let weeklyTotals :=
    (last7Days today).foldl (fun acc d => accList acc (getTotalsByTag entries d)) []
  weeklyTotals.foldl (fun a p => jsSet a p.1 (p.2.map (fun t => jsRoundDiv t 7))) []

/-- The epoch timestamp (in seconds) of `new Date` applied to
`date + "T" + start` of an entry; `none` models an Invalid Date. -/
def entryTs (e : TimeEntry) : Option Int :=
  match parseDate e.date, parseTime e.start with
  | some x, some t => some (dayNumber x * 86400 + t)
  | _, _ => none

/-- Sort key used to model the numeric comparator of `addEntry`'s
`sort`; 0 stands in for the implementation-defined handling of `NaN`
comparisons (see the header note). -/
def tsKey (e : TimeEntry) : Int := (entryTs e).getD 0

/-- The `newEntry` object literal built by `addEntry` (`src/App.jsx`
lines 56-64) from the form state; its `duration` is the
`calculateDuration` result, possibly `NaN`. -/
def newEntryOf (selectedDate startT endT desc tg : String) (id : Int) : TimeEntry :=
  { id := id, date := selectedDate, start := startT, «end» := endT,
    duration := calculateDuration selectedDate startT endT,
    description := desc, tag := tg }

/-- `addEntry` from `src/App.jsx` lines 49-75: reject when any form field
is the empty string, otherwise append the new entry built from the form
state and re-sort the list by the `date + "T" + start` timestamp. -/
def addEntry (prev : List TimeEntry) (selectedDate startT endT desc tg : String)
    (id : Int) : List TimeEntry :=
  if startT == "" || endT == "" || desc == "" || tg == "" then prev
  else
    (prev ++ [newEntryOf selectedDate startT endT desc tg id]).mergeSort
      (fun a b => decide (tsKey a ≤ tsKey b))

/-- A time entry of the Supabase variant
(`src/components/TimeTracker.jsx`): timestamps are ISO strings,
`duration_minutes` may be null/absent (`none`), and `projectName` models
`entry.projects?.name` (`none` when the join produced nothing). -/
structure SupEntry where
  id : Int
  start_time : String
  end_time : String
  duration_minutes : Option Int
  projectName : Option String
  description : String
deriving DecidableEq

/-- The attributed date of a Supabase entry:
`new Date(entry.start_time).toISOString().split('T')[0]`, for entries
whose `start_time` is a canonical ISO string as stored by `createTimeEntry`. -/
def supDateOf (e : SupEntry) : String :=
  String.mk (e.start_time.data.takeWhile (fun c => c != 'T'))

/-- `getEntriesForDate` from `src/components/TimeTracker.jsx` lines
179-184: filter by the ISO date of `start_time`. -/
def getEntriesForDateSup (entries : List SupEntry) (date : String) : List SupEntry :=
  entries.filter (fun e => supDateOf e == date)

/-- `entry.projects?.name || 'Unknown'`: a missing join result and an
empty name are both falsy and fall back to the sentinel category. -/
def resolvedName (e : SupEntry) : String :=
  match e.projectName with
  | none => "Unknown"
  | some n => if n == "" then "Unknown" else n

/-- The numeric value of `m[k] || 0` for an integer-valued object. -/
def getValI (m : List (String × Int)) (k : String) : Int := (jsGet m k).getD 0

/-- One step `m[k] = (m[k] || 0) + v` with an integer increment. -/
def upsertAddI (m : List (String × Int)) (k : String) (v : Int) : List (String × Int) :=
  jsSet m k (getValI m k + v)

/-- `getTotalsByCategory` from `src/components/TimeTracker.jsx` lines
186-194: sum `entry.duration_minutes || 0` per resolved category name
over the entries of one date. -/
def getTotalsByCategory (entries : List SupEntry) (date : String) :
    List (String × Int) :=
  (getEntriesForDateSup entries date).foldl
    (fun m e => upsertAddI m (resolvedName e) (e.duration_minutes.getD 0)) []

/-- Whitespace trimming of both ends, as `String.prototype.trim` does,
written over the character list. -/
def trimChars (s : String) : List Char :=
  ((s.data.dropWhile Char.isWhitespace).reverse.dropWhile Char.isWhitespace).reverse

/-- `validateTimeFormat` from the REST variant (`src/unnamed/part_001`
lines 26-29): the regular expression
`/^(1[0-2]|0?[1-9]):([0-5][0-9])\s?(AM|PM)$/i` applied to the trimmed
input, written out over the string's characters. -/
def validateTimeFormat (s : String) : Bool :=
  let hour1 := fun (h : Char) => '1' ≤ h && h ≤ '9'
  let hour2 := fun (h1 h2 : Char) =>
    (h1 == '0' && '1' ≤ h2 && h2 ≤ '9') || (h1 == '1' && '0' ≤ h2 && h2 ≤ '2')
  let minOk := fun (m1 m2 : Char) => '0' ≤ m1 && m1 ≤ '5' && m2.isDigit
  let amPm := fun (a m : Char) =>
    (a == 'A' || a == 'a' || a == 'P' || a == 'p') && (m == 'M' || m == 'm')
  match trimChars s with
  | [h, ':', m1, m2, a, m] => hour1 h && minOk m1 m2 && amPm a m
  | [h, ':', m1, m2, sp, a, m] =>
      hour1 h && minOk m1 m2 && sp.isWhitespace && amPm a m
  | [h1, h2, ':', m1, m2, a, m] => hour2 h1 h2 && minOk m1 m2 && amPm a m
  | [h1, h2, ':', m1, m2, sp, a, m] =>
      hour2 h1 h2 && minOk m1 m2 && sp.isWhitespace && amPm a m
  | _ => false

/-- Modelled from the spec: `computeDuration` as §4.1 and §7 describe it,
failing with `InvalidTimeFormat` when either input cannot be parsed as a
time of day, and otherwise returning the rounded `(end - start) mod 24h`
minute difference.  The repository code has no such error channel; this
definition exists to compare the spec's words with `calculateDuration`. -/
def computeDurationSpec (startT endT : String) : Except String Int :=
  match parseTime startT, parseTime endT with
  | some ts, some te => Except.ok (jsRoundDiv (((te : Int) - ts) % 86400) 60)
  | _, _ => Except.error "InvalidTimeFormat"

/-- Modelled from the claim C1's words: advance the end by one day when it
is at or before (`≤`) the start, then difference; this differs from the
code only in using `≤` where the code uses `<`. -/
def c1ClaimDuration (selectedDate startT endT : String) : Option Int :=
  match parseDate selectedDate, parseTime startT, parseTime endT with
  | some x, some ts, some te =>
      let a : Int := dayNumber x * 86400 + ts
      let b : Int := dayNumber x * 86400 + te
      let b2 : Int := if b ≤ a then b + 86400 else b
      some (jsRoundDiv (b2 - a) 60)
  | _, _, _ => none
-- map lemmas

theorem jsGet_nil {α : Type} (k : String) : jsGet ([] : List (String × α)) k = none := rfl

theorem jsGet_cons {α : Type} (p : String × α) (m : List (String × α)) (k : String) :
    jsGet (p :: m) k = if p.1 == k then some p.2 else jsGet m k := by
  by_cases h : p.1 == k
  · simp [jsGet, List.find?_cons_of_pos, h]
  · simp only [Bool.not_eq_true] at h
    simp [jsGet, List.find?_cons_of_neg, h]

theorem jsGet_isSome_iff {α : Type} (m : List (String × α)) (k : String) :
    (jsGet m k).isSome ↔ ∃ p ∈ m, p.1 = k := by
  simp [jsGet, List.find?_isSome]

theorem jsGet_replace_self {α : Type} (k : String) (v : α) :
    ∀ m : List (String × α), m.any (fun p => p.1 == k) = true →
      jsGet (m.map (fun p => if p.1 == k then (k, v) else p)) k = some v := by
  intro m
  induction m with
  | nil => intro h; simp at h
  | cons a t ih =>
    intro h
    by_cases hk : a.1 = k
    · simp [jsGet_cons, hk]
    · have hk2 : (a.1 == k) = false := beq_eq_false_iff_ne.mpr hk
      have ht : t.any (fun p => p.1 == k) = true := by
        simp only [List.any_cons, hk2, Bool.false_or] at h
        exact h
      simp only [List.map_cons, hk2, if_false, jsGet_cons]
      rw [if_neg (by simp [hk])]
      exact ih ht

theorem jsGet_replace_ne {α : Type} (k k2 : String) (v : α) (hne : k2 ≠ k) :
    ∀ m : List (String × α),
      jsGet (m.map (fun p => if p.1 == k then (k, v) else p)) k2 = jsGet m k2 := by
  intro m
  induction m with
  | nil => rfl
  | cons a t ih =>
    by_cases hk : a.1 = k
    · have h1 : (k == k2) = false := beq_eq_false_iff_ne.mpr (fun h => hne h.symm)
      have h2 : (a.1 == k2) = false := by
        rw [hk]; exact h1
      simp only [List.map_cons, hk, beq_self_eq_true, if_true, jsGet_cons, h1, h2,
        if_false]
      exact ih
    · have hk2 : (a.1 == k) = false := beq_eq_false_iff_ne.mpr hk
      simp only [List.map_cons, hk2, if_false, jsGet_cons]
      by_cases ha : a.1 = k2
      · simp [ha]
      · have ha2 : (a.1 == k2) = false := beq_eq_false_iff_ne.mpr ha
        simp only [ha2, Bool.false_eq_true, if_false]
        exact ih

theorem jsGet_jsSet_self {α : Type} (m : List (String × α)) (k : String) (v : α) :
    jsGet (jsSet m k v) k = some v := by
  unfold jsSet
  by_cases h : m.any (fun p => p.1 == k) = true
  · rw [if_pos h]; exact jsGet_replace_self k v m h
  · have h2 : m.any (fun p => p.1 == k) = false := by
      cases hx : m.any (fun p => p.1 == k) <;> simp_all
    rw [if_neg (by simp [h2])]
    have hnone : m.find? (fun p => p.1 == k) = none := by
      rw [List.find?_eq_none]
      intro x hx
      simpa using List.any_eq_false.mp h2 x hx
    simp [jsGet, List.find?_append, hnone, List.find?_cons_of_pos]

theorem jsGet_jsSet_ne {α : Type} (m : List (String × α)) (k k2 : String) (v : α)
    (hne : k2 ≠ k) : jsGet (jsSet m k v) k2 = jsGet m k2 := by
  unfold jsSet
  by_cases h : m.any (fun p => p.1 == k) = true
  · rw [if_pos h]; exact jsGet_replace_ne k k2 v hne m
  · have h2 : m.any (fun p => p.1 == k) = false := by
      cases hx : m.any (fun p => p.1 == k) <;> simp_all
    rw [if_neg (by simp [h2])]
    have hsingle : List.find? (fun p => p.1 == k2) [(k, v)] = none := by
      have : (k == k2) = false := beq_eq_false_iff_ne.mpr (fun h3 => hne h3.symm)
      simp [List.find?, this]
    simp [jsGet, List.find?_append, hsingle]
-- accumulation lemmas

/-- Keys of an association-list object. -/
def keysOf {α : Type} (m : List (String × α)) : List String := m.map (fun p => p.1)

/-- Sum of the numeric values of a totals object (a `NaN` value contributes
its falsy coercion 0, as in `v || 0`). -/
def sumValues (m : List (String × Option Int)) : Int :=
  (m.map (fun p => p.2.getD 0)).sum

/-- Total of the values attached to one key in a raw pair list. -/
def keySum (l : List (String × Option Int)) (k : String) : Int :=
  ((l.filter (fun p => p.1 == k)).map (fun p => p.2.getD 0)).sum

theorem keysOf_nil {α : Type} : keysOf ([] : List (String × α)) = [] := rfl

theorem keysOf_cons {α : Type} (p : String × α) (m : List (String × α)) :
    keysOf (p :: m) = p.1 :: keysOf m := rfl

theorem sumValues_nil : sumValues [] = 0 := rfl

theorem sumValues_cons (p : String × Option Int) (m : List (String × Option Int)) :
    sumValues (p :: m) = p.2.getD 0 + sumValues m := by
  simp [sumValues]

theorem keySum_nil (k : String) : keySum [] k = 0 := rfl

theorem keySum_cons (p : String × Option Int) (l : List (String × Option Int))
    (k : String) :
    keySum (p :: l) k = (if p.1 == k then p.2.getD 0 else 0) + keySum l k := by
  unfold keySum
  rw [List.filter_cons]
  by_cases hp : (p.1 == k) = true
  · rw [if_pos hp, if_pos hp, List.map_cons, List.sum_cons]
  · rw [if_neg hp, if_neg hp, zero_add]

theorem keySum_eq_zero (l : List (String × Option Int)) (k : String)
    (h : ∀ p ∈ l, (p.1 == k) = false) : keySum l k = 0 := by
  unfold keySum
  have : l.filter (fun p => p.1 == k) = [] := by
    rw [List.filter_eq_nil_iff]
    intro p hp
    simp [h p hp]
  rw [this]
  rfl

theorem getVal_nil (k : String) : getVal [] k = 0 := rfl

theorem getVal_cons (p : String × Option Int) (m : List (String × Option Int))
    (k : String) :
    getVal (p :: m) k = if p.1 == k then p.2.getD 0 else getVal m k := by
  unfold getVal
  rw [jsGet_cons]
  by_cases hp : (p.1 == k) = true
  · rw [if_pos hp, if_pos hp]
    rfl
  · rw [if_neg hp, if_neg hp]

theorem getVal_of_any_false (m : List (String × Option Int)) (k : String)
    (h : m.any (fun p => p.1 == k) = false) : getVal m k = 0 := by
  have hnone : m.find? (fun p => p.1 == k) = none := by
    rw [List.find?_eq_none]
    intro x hx
    simpa using List.any_eq_false.mp h x hx
  simp [getVal, jsGet, hnone]

theorem replace_map_id (k : String) (v : Option Int) :
    ∀ t : List (String × Option Int), (∀ p ∈ t, (p.1 == k) = false) →
      t.map (fun p => if p.1 == k then (k, v) else p) = t := by
  intro t
  induction t with
  | nil => intro _; rfl
  | cons a t ih =>
    intro h
    have ha := h a (List.mem_cons_self a t)
    rw [List.map_cons, if_neg (by simp [ha]),
      ih (fun p hp => h p (List.mem_cons_of_mem a hp))]

theorem keysOf_jsSet_nodup {α : Type} (m : List (String × α)) (k : String) (v : α)
    (h : (keysOf m).Nodup) : (keysOf (jsSet m k v)).Nodup := by
  unfold jsSet
  by_cases hany : m.any (fun p => p.1 == k) = true
  · rw [if_pos hany]
    have : keysOf (m.map (fun p => if p.1 == k then (k, v) else p)) = keysOf m := by
      unfold keysOf
      rw [List.map_map]
      apply List.map_congr_left
      intro p _
      by_cases hp : (p.1 == k) = true
      · show (if p.1 == k then (k, v) else p).1 = p.1
        rw [if_pos hp]
        exact (beq_iff_eq.mp hp).symm
      · show (if p.1 == k then (k, v) else p).1 = p.1
        rw [if_neg hp]
    rwa [this]
  · have h2 : m.any (fun p => p.1 == k) = false := by
      cases hx : m.any (fun p => p.1 == k) <;> simp_all
    rw [if_neg (by simp [h2])]
    have hk : k ∉ keysOf m := by
      intro hmem
      obtain ⟨p, hp, hpk⟩ := List.mem_map.mp hmem
      have := List.any_eq_false.mp h2 p hp
      simp [hpk] at this
    unfold keysOf
    rw [List.map_append, List.nodup_append]
    refine ⟨h, List.nodup_singleton k, ?_⟩
    intro a ha hb
    simp only [List.map_cons, List.map_nil, List.mem_singleton] at hb
    subst hb
    exact hk ha

theorem sumValues_replace (k : String) (v : Option Int) :
    ∀ m : List (String × Option Int), (keysOf m).Nodup →
      m.any (fun p => p.1 == k) = true →
      sumValues (m.map (fun p => if p.1 == k then (k, v) else p))
        = sumValues m - getVal m k + v.getD 0 := by
  intro m
  induction m with
  | nil => intro _ h; simp at h
  | cons a t ih =>
    intro hnd hany
    rw [keysOf_cons, List.nodup_cons] at hnd
    by_cases hp : (a.1 == k) = true
    · have hkeys : ∀ p ∈ t, (p.1 == k) = false := by
        intro p hpt
        apply beq_eq_false_iff_ne.mpr
        intro he
        exact hnd.1 (List.mem_map.mpr ⟨p, hpt, he.trans (beq_iff_eq.mp hp).symm⟩)
      rw [List.map_cons, if_pos hp, replace_map_id k v t hkeys, sumValues_cons,
        sumValues_cons, getVal_cons, if_pos hp]
      ring
    · have hany2 : t.any (fun p => p.1 == k) = true := by
        rcases (List.any_eq_true).mp hany with ⟨p, hpm, hpk⟩
        rcases List.mem_cons.mp hpm with rfl | hpt
        · exact absurd hpk (by simp [hp])
        · exact (List.any_eq_true).mpr ⟨p, hpt, hpk⟩
      rw [List.map_cons, if_neg hp, sumValues_cons, sumValues_cons, getVal_cons,
        if_neg hp, ih hnd.2 hany2]
      ring

theorem sumValues_jsSet (m : List (String × Option Int)) (k : String) (v : Option Int)
    (h : (keysOf m).Nodup) :
    sumValues (jsSet m k v) = sumValues m - getVal m k + v.getD 0 := by
  unfold jsSet
  by_cases hany : m.any (fun p => p.1 == k) = true
  · rw [if_pos hany]
    exact sumValues_replace k v m h hany
  · have h2 : m.any (fun p => p.1 == k) = false := by
      cases hx : m.any (fun p => p.1 == k) <;> simp_all
    rw [if_neg (by simp [h2]), getVal_of_any_false m k h2]
    simp [sumValues]
-- upsert and fold lemmas

theorem upsertAdd_some (m : List (String × Option Int)) (k : String) (d : Int) :
    upsertAdd m k (some d) = jsSet m k (some (getVal m k + d)) := rfl

theorem getVal_upsertAdd_self (m : List (String × Option Int)) (k : String) (d : Int) :
    getVal (upsertAdd m k (some d)) k = getVal m k + d := by
  rw [upsertAdd_some]
  unfold getVal
  rw [jsGet_jsSet_self]
  rfl

theorem getVal_upsertAdd_ne (m : List (String × Option Int)) (k k2 : String)
    (v : Option Int) (h : k2 ≠ k) : getVal (upsertAdd m k v) k2 = getVal m k2 := by
  unfold upsertAdd getVal
  rw [jsGet_jsSet_ne _ _ _ _ h]

theorem jsGet_upsertAdd_self (m : List (String × Option Int)) (k : String) (d : Int) :
    jsGet (upsertAdd m k (some d)) k = some (some (getVal m k + d)) := by
  rw [upsertAdd_some]
  exact jsGet_jsSet_self m k (some (getVal m k + d))

theorem keysOf_upsertAdd_nodup (m : List (String × Option Int)) (k : String)
    (v : Option Int) (h : (keysOf m).Nodup) : (keysOf (upsertAdd m k v)).Nodup :=
  keysOf_jsSet_nodup m k _ h

theorem sumValues_upsertAdd (m : List (String × Option Int)) (k : String) (d : Int)
    (h : (keysOf m).Nodup) : sumValues (upsertAdd m k (some d)) = sumValues m + d := by
  rw [upsertAdd_some, sumValues_jsSet _ _ _ h]
  simp
  ring

theorem accList_nil (acc : List (String × Option Int)) : accList acc [] = acc := rfl

theorem accList_cons (acc : List (String × Option Int)) (p : String × Option Int)
    (l : List (String × Option Int)) :
    accList acc (p :: l) = accList (upsertAdd acc p.1 p.2) l := rfl

theorem accList_nodup :
    ∀ (l acc : List (String × Option Int)), (keysOf acc).Nodup →
      (keysOf (accList acc l)).Nodup := by
  intro l
  induction l with
  | nil => intro acc h; exact h
  | cons p l ih =>
    intro acc h
    rw [accList_cons]
    exact ih _ (keysOf_upsertAdd_nodup acc p.1 p.2 h)

theorem sumValues_accList :
    ∀ (l acc : List (String × Option Int)), (keysOf acc).Nodup →
      (∀ p ∈ l, p.2.isSome) →
      sumValues (accList acc l) = sumValues acc + (l.map (fun p => p.2.getD 0)).sum := by
  intro l
  induction l with
  | nil => intro acc _ _; simp [accList_nil]
  | cons p l ih =>
    intro acc hnd hsome
    obtain ⟨d, hd⟩ := Option.isSome_iff_exists.mp (hsome p (List.mem_cons_self p l))
    rw [accList_cons, hd,
      ih _ (keysOf_upsertAdd_nodup acc p.1 (some d) hnd)
        (fun q hq => hsome q (List.mem_cons_of_mem p hq)),
      sumValues_upsertAdd acc p.1 d hnd, List.map_cons, List.sum_cons, hd]
    simp
    ring

theorem getVal_accList :
    ∀ (l acc : List (String × Option Int)) (k : String), (∀ p ∈ l, p.2.isSome) →
      getVal (accList acc l) k = getVal acc k + keySum l k := by
  intro l
  induction l with
  | nil => intro acc k _; simp [accList_nil, keySum_nil]
  | cons p l ih =>
    intro acc k hsome
    obtain ⟨d, hd⟩ := Option.isSome_iff_exists.mp (hsome p (List.mem_cons_self p l))
    rw [accList_cons, ih _ k (fun q hq => hsome q (List.mem_cons_of_mem p hq)),
      keySum_cons]
    by_cases hp : (p.1 == k) = true
    · have : k = p.1 := (beq_iff_eq.mp hp).symm
      subst this
      rw [hd, getVal_upsertAdd_self, if_pos hp]
      simp only [hd, Option.getD_some]
      ring
    · have hne : k ≠ p.1 := fun he => hp (beq_iff_eq.mpr he.symm)
      rw [getVal_upsertAdd_ne acc p.1 k p.2 hne, if_neg hp]
      ring

theorem jsGet_accList_isSome :
    ∀ (l acc : List (String × Option Int)) (k : String),
      (jsGet (accList acc l) k).isSome ↔
        ((jsGet acc k).isSome ∨ ∃ p ∈ l, p.1 = k) := by
  intro l
  induction l with
  | nil => intro acc k; simp [accList_nil]
  | cons p l ih =>
    intro acc k
    rw [accList_cons, ih]
    by_cases hp : k = p.1
    · have hs : (jsGet (upsertAdd acc p.1 p.2) k).isSome = true := by
        rw [hp]
        unfold upsertAdd
        rw [jsGet_jsSet_self]
        rfl
      exact Iff.intro (fun _ => Or.inr ⟨p, List.mem_cons_self p l, hp.symm⟩)
        (fun _ => Or.inl hs)
    · have : jsGet (upsertAdd acc p.1 p.2) k = jsGet acc k := by
        unfold upsertAdd
        exact jsGet_jsSet_ne acc p.1 k _ hp
      rw [this]
      constructor
      · rintro (h | ⟨q, hq, hqk⟩)
        · exact Or.inl h
        · exact Or.inr ⟨q, List.mem_cons_of_mem p hq, hqk⟩
      · rintro (h | ⟨q, hq, hqk⟩)
        · exact Or.inl h
        · rcases List.mem_cons.mp hq with rfl | hq2
          · exact absurd hqk.symm hp
          · exact Or.inr ⟨q, hq2, hqk⟩

theorem accList_values_isSome :
    ∀ (l acc : List (String × Option Int)),
      (∀ k w, jsGet acc k = some w → w.isSome) → (∀ p ∈ l, p.2.isSome) →
      ∀ k w, jsGet (accList acc l) k = some w → w.isSome := by
  intro l
  induction l with
  | nil => intro acc hinv _ k w h; exact hinv k w h
  | cons p l ih =>
    intro acc hinv hsome
    obtain ⟨d, hd⟩ := Option.isSome_iff_exists.mp (hsome p (List.mem_cons_self p l))
    rw [accList_cons]
    apply ih _ _ (fun q hq => hsome q (List.mem_cons_of_mem p hq))
    intro k w h
    by_cases hk : k = p.1
    · subst hk
      rw [hd, jsGet_upsertAdd_self] at h
      cases h
      rfl
    · rw [show upsertAdd acc p.1 p.2 = jsSet acc p.1 _ from rfl,
        jsGet_jsSet_ne acc p.1 k _ hk] at h
      exact hinv k w h

theorem keySum_eq_getVal :
    ∀ m : List (String × Option Int), (keysOf m).Nodup →
      ∀ k, keySum m k = getVal m k := by
  intro m
  induction m with
  | nil => intro _ k; rfl
  | cons a t ih =>
    intro hnd k
    rw [keysOf_cons, List.nodup_cons] at hnd
    rw [keySum_cons, getVal_cons]
    by_cases hp : (a.1 == k) = true
    · have hz : keySum t k = 0 := by
        apply keySum_eq_zero
        intro p hpt
        apply beq_eq_false_iff_ne.mpr
        intro he
        exact hnd.1 (List.mem_map.mpr ⟨p, hpt, he.trans (beq_iff_eq.mp hp).symm⟩)
      rw [if_pos hp, if_pos hp, hz, add_zero]
    · rw [if_neg hp, if_neg hp, zero_add, ih hnd.2 k]

theorem mapFold_get_of_not_mem (f : Option Int → Option Int) :
    ∀ (m acc : List (String × Option Int)) (k : String),
      (∀ p ∈ m, (p.1 == k) = false) →
      jsGet (m.foldl (fun a p => jsSet a p.1 (f p.2)) acc) k = jsGet acc k := by
  intro m
  induction m with
  | nil => intro acc k _; rfl
  | cons a t ih =>
    intro acc k h
    rw [List.foldl_cons, ih _ k (fun p hp => h p (List.mem_cons_of_mem a hp)),
      jsGet_jsSet_ne]
    intro he
    have := h a (List.mem_cons_self a t)
    rw [he] at this
    simp at this

theorem mapFold_get_of_get (f : Option Int → Option Int) :
    ∀ (m acc : List (String × Option Int)) (k : String) (w : Option Int),
      (keysOf m).Nodup → jsGet m k = some w →
      jsGet (m.foldl (fun a p => jsSet a p.1 (f p.2)) acc) k = some (f w) := by
  intro m
  induction m with
  | nil => intro acc k w _ h; simp [jsGet_nil] at h
  | cons a t ih =>
    intro acc k w hnd hget
    rw [keysOf_cons, List.nodup_cons] at hnd
    rw [jsGet_cons] at hget
    by_cases hp : (a.1 == k) = true
    · rw [if_pos hp] at hget
      cases hget
      have hk : k = a.1 := (beq_iff_eq.mp hp).symm
      subst hk
      rw [List.foldl_cons,
        mapFold_get_of_not_mem f t _ a.1 (fun p hpt => beq_eq_false_iff_ne.mpr
          (fun he => hnd.1 (List.mem_map.mpr ⟨p, hpt, he⟩))),
        jsGet_jsSet_self]
    · rw [if_neg hp] at hget
      rw [List.foldl_cons]
      exact ih _ k w hnd.2 hget

theorem daysFold_getVal (F : String → List (String × Option Int)) :
    ∀ (days : List String) (acc : List (String × Option Int)) (k : String),
      (∀ d ∈ days, ∀ p ∈ F d, p.2.isSome) →
      getVal (days.foldl (fun a d => accList a (F d)) acc) k
        = getVal acc k + (days.map (fun d => keySum (F d) k)).sum := by
  intro days
  induction days with
  | nil => intro acc k _; simp
  | cons d days ih =>
    intro acc k h
    rw [List.foldl_cons, ih _ k (fun d2 hd2 => h d2 (List.mem_cons_of_mem d hd2)),
      getVal_accList (F d) acc k (h d (List.mem_cons_self d days)),
      List.map_cons, List.sum_cons]
    ring

theorem daysFold_values_isSome (F : String → List (String × Option Int)) :
    ∀ (days : List String) (acc : List (String × Option Int)),
      (∀ k w, jsGet acc k = some w → w.isSome) →
      (∀ d ∈ days, ∀ p ∈ F d, p.2.isSome) →
      ∀ k w, jsGet (days.foldl (fun a d => accList a (F d)) acc) k = some w →
        w.isSome := by
  intro days
  induction days with
  | nil => intro acc hinv _ k w h; exact hinv k w h
  | cons d days ih =>
    intro acc hinv h
    rw [List.foldl_cons]
    exact ih _ (accList_values_isSome (F d) acc hinv (h d (List.mem_cons_self d days)))
      (fun d2 hd2 => h d2 (List.mem_cons_of_mem d hd2))

theorem daysFold_congr (F G : String → List (String × Option Int)) :
    ∀ (days : List String) (acc : List (String × Option Int)),
      (∀ d ∈ days, F d = G d) →
      days.foldl (fun a d => accList a (F d)) acc
        = days.foldl (fun a d => accList a (G d)) acc := by
  intro days
  induction days with
  | nil => intro acc _; rfl
  | cons d days ih =>
    intro acc h
    rw [List.foldl_cons, List.foldl_cons, h d (List.mem_cons_self d days),
      ih _ (fun d2 hd2 => h d2 (List.mem_cons_of_mem d hd2))]

-- integer-valued layer (Supabase variant)

/-- Total of the integer values attached to one key in a raw pair list. -/
def keySumI (l : List (String × Int)) (k : String) : Int :=
  ((l.filter (fun p => p.1 == k)).map (fun p => p.2)).sum

theorem keySumI_nil (k : String) : keySumI [] k = 0 := rfl

theorem keySumI_cons (p : String × Int) (l : List (String × Int)) (k : String) :
    keySumI (p :: l) k = (if p.1 == k then p.2 else 0) + keySumI l k := by
  unfold keySumI
  rw [List.filter_cons]
  by_cases hp : (p.1 == k) = true
  · rw [if_pos hp, if_pos hp, List.map_cons, List.sum_cons]
  · rw [if_neg hp, if_neg hp, zero_add]

theorem getValI_upsertAddI_self (m : List (String × Int)) (k : String) (v : Int) :
    getValI (upsertAddI m k v) k = getValI m k + v := by
  unfold upsertAddI getValI
  rw [jsGet_jsSet_self]
  rfl

theorem getValI_upsertAddI_ne (m : List (String × Int)) (k k2 : String) (v : Int)
    (h : k2 ≠ k) : getValI (upsertAddI m k v) k2 = getValI m k2 := by
  unfold upsertAddI getValI
  rw [jsGet_jsSet_ne _ _ _ _ h]

theorem getValI_foldI :
    ∀ (l : List (String × Int)) (acc : List (String × Int)) (k : String),
      getValI (l.foldl (fun a p => upsertAddI a p.1 p.2) acc) k
        = getValI acc k + keySumI l k := by
  intro l
  induction l with
  | nil => intro acc k; simp [keySumI_nil]
  | cons p l ih =>
    intro acc k
    rw [List.foldl_cons, ih, keySumI_cons]
    by_cases hp : (p.1 == k) = true
    · have : k = p.1 := (beq_iff_eq.mp hp).symm
      subst this
      rw [getValI_upsertAddI_self, if_pos hp]
      ring
    · have hne : k ≠ p.1 := fun he => hp (beq_iff_eq.mpr he.symm)
      rw [getValI_upsertAddI_ne acc p.1 k p.2 hne, if_neg hp]
      ring
-- bridges and parser bounds

theorem getTotalsByTag_eq_accList (entries : List TimeEntry) (date : String) :
    getTotalsByTag entries date
      = accList [] ((getEntriesForDate entries date).map (fun e => (e.tag, e.duration))) := by
  unfold getTotalsByTag accList
  rw [List.foldl_map]

theorem parseTime_lt (s : String) (t : Nat) (h : parseTime s = some t) : t < 86400 := by
  unfold parseTime at h
  split at h
  · split at h
    · simp only [] at h
      split at h
      · rename_i hrange
        injection h with h2
        subst h2
        simp only [Bool.and_eq_true, decide_eq_true_eq] at hrange
        omega
      · exact absurd h (by simp)
    · exact absurd h (by simp)
  · split at h
    · simp only [] at h
      split at h
      · rename_i hrange
        injection h with h2
        subst h2
        simp only [Bool.and_eq_true, decide_eq_true_eq] at hrange
        omega
      · exact absurd h (by simp)
    · exact absurd h (by simp)
  · exact absurd h (by simp)

-- claims C1, C2, C3, C6

/-- Claim C1, counterexample: the claim's rule advances the end by a day
when it is at or before the start, so at `start = end = "10:00"` it
yields 1440 minutes, while `calculateDuration` (which advances only when
the end is strictly earlier) yields 0. -/
theorem c1_counterexample :
    calculateDuration "2024-01-01" "10:00" "10:00" = some 0 ∧
    c1ClaimDuration "2024-01-01" "10:00" "10:00" = some 1440 ∧
    (some (0 : Int) : Option Int) ≠ some 1440 := by
  exact ⟨by decide, by decide, by decide⟩

/-- Claim C1 (amended): for every parseable date and pair of parseable
times, `calculateDuration` advances the end by exactly one day only when
it is chronologically strictly before the start, which is equivalent to
returning the rounded `(end - start) mod 24h` minute difference; the
overnight case 23:30 to 00:15 gives 45 minutes and the result is never
negative. -/
theorem c1_duration_mod24h (d s e : String) (x : YMD) (ts te : Nat)
    (hd : parseDate d = some x) (hs : parseTime s = some ts)
    (he : parseTime e = some te) :
    calculateDuration d s e = some (jsRoundDiv (((te : Int) - ts) % 86400) 60) ∧
      ∀ r, calculateDuration d s e = some r → 0 ≤ r := by
  have hts := parseTime_lt s ts hs
  have hte := parseTime_lt e te he
  have hcalc : calculateDuration d s e
      = some (jsRoundDiv ((if (dayNumber x * 86400 + (te : Int))
          < dayNumber x * 86400 + (ts : Int)
          then dayNumber x * 86400 + (te : Int) + 86400
          else dayNumber x * 86400 + (te : Int)) - (dayNumber x * 86400 + (ts : Int)))
          60) := by
    unfold calculateDuration
    rw [hd, hs, he]
  have harg : (if (dayNumber x * 86400 + (te : Int)) < dayNumber x * 86400 + (ts : Int)
      then dayNumber x * 86400 + (te : Int) + 86400
      else dayNumber x * 86400 + (te : Int)) - (dayNumber x * 86400 + (ts : Int))
      = ((te : Int) - ts) % 86400 := by
    split_ifs with hba <;> omega
  constructor
  · rw [hcalc, harg]
  · intro r hr
    rw [hcalc, harg] at hr
    injection hr with hr
    subst hr
    unfold jsRoundDiv
    omega

/-- Claim C1 witness: the amended theorem applied to the overnight
example 23:30 to 00:15 on 2024-01-01, which evaluates to 45 minutes. -/
theorem c1_witness :
    parseDate "2024-01-01" = some ⟨2024, 1, 1⟩ ∧
    parseTime "23:30" = some 84600 ∧ parseTime "00:15" = some 900 ∧
    calculateDuration "2024-01-01" "23:30" "00:15"
      = some (jsRoundDiv (((900 : Int) - 84600) % 86400) 60) ∧
    calculateDuration "2024-01-01" "23:30" "00:15" = some 45 :=
  ⟨by decide, by decide, by decide,
    (c1_duration_mod24h "2024-01-01" "23:30" "00:15" ⟨2024, 1, 1⟩ 84600 900
      (by decide) (by decide) (by decide)).1, by decide⟩

/-- Claim C2: for every parseable date and time, an entry with equal
start and end has duration 0; the strict comparison in
`calculateDuration` means it is not treated as overnight (not 1440). -/
theorem c2_zero_length (d t : String) (x : YMD) (ts : Nat)
    (hd : parseDate d = some x) (ht : parseTime t = some ts) :
    calculateDuration d t t = some 0 := by
  unfold calculateDuration
  rw [hd, ht]
  simp only [lt_self_iff_false, if_false, sub_self]
  norm_num [jsRoundDiv]

/-- Claim C2 witness: the zero-length theorem applied at a concrete date
and time. -/
theorem c2_witness :
    parseDate "2024-01-01" = some ⟨2024, 1, 1⟩ ∧ parseTime "10:00" = some 36000 ∧
    calculateDuration "2024-01-01" "10:00" "10:00" = some 0 :=
  ⟨by decide, by decide,
    c2_zero_length "2024-01-01" "10:00" ⟨2024, 1, 1⟩ 36000 (by decide) (by decide)⟩

/-- Claim C3, counterexample: on the unparseable-for-this-variant time
`"9:15 AM"` (which the REST variant's own `validateTimeFormat` accepts as
a well-formed time of day), `computeDuration` as the spec describes it
fails with `InvalidTimeFormat`, but the code raises nothing: `addEntry`
silently stores the entry with a `NaN` duration. -/
theorem c3_counterexample :
    computeDurationSpec "9:15 AM" "10:00" = Except.error "InvalidTimeFormat" ∧
    validateTimeFormat "9:15 AM" = true ∧
    addEntry [] "2024-01-01" "9:15 AM" "10:00" "brunch" "Social" 7
      = [{ id := 7, date := "2024-01-01", start := "9:15 AM", «end» := "10:00",
           duration := none, description := "brunch", tag := "Social" }] ∧
    ({ id := 7, date := "2024-01-01", start := "9:15 AM", «end» := "10:00",
       duration := none, description := "brunch", tag := "Social" } :
        TimeEntry).duration = none := by
  refine ⟨rfl, by decide, ?_, rfl⟩
  simp [addEntry, newEntryOf, calculateDuration, parseTime]

/-- Claim C3 (amended): `calculateDuration` has no error channel; when
either time fails to parse it evaluates to `NaN` (`none`), so in
particular it never coerces an unparseable input to a numeric (for
example zero) duration; rejection of ill-formatted times happens only in
the REST variant's submit handler via `validateTimeFormat`. -/
theorem c3_nan_not_error (d s e : String)
    (h : parseTime s = none ∨ parseTime e = none) :
    calculateDuration d s e = none := by
  unfold calculateDuration
  rcases h with h | h
  · rw [h]
    cases parseDate d <;> cases parseTime e <;> rfl
  · rw [h]
    cases parseDate d <;> cases parseTime s <;> rfl

/-- Claim C3 witness: the amended theorem applied to an unparseable
start time. -/
theorem c3_witness :
    (parseTime "banana" = none ∨ parseTime "10:00" = none) ∧
    calculateDuration "2024-01-01" "banana" "10:00" = none :=
  ⟨Or.inl (by decide),
    c3_nan_not_error "2024-01-01" "banana" "10:00" (Or.inl (by decide))⟩

/-- Claim C6: `getEntriesForDate` returns exactly the entries whose
`date` field is string-equal to the requested date (membership both
ways), and the result is a sublist of the input, so the relative input
order is preserved without re-sorting. -/
theorem c6_entries_for_date (entries : List TimeEntry) (date : String) :
    (getEntriesForDate entries date).Sublist entries ∧
      ∀ e : TimeEntry, e ∈ getEntriesForDate entries date ↔
        (e ∈ entries ∧ e.date = date) := by
  refine ⟨List.filter_sublist entries, fun e => ?_⟩
  unfold getEntriesForDate
  rw [List.mem_filter]
  simp
-- pairwise value facts and remaining helpers

theorem jsSet_forall {α : Type} (P : α → Prop) (m : List (String × α)) (k : String)
    (v : α) (hm : ∀ p ∈ m, P p.2) (hv : P v) : ∀ p ∈ jsSet m k v, P p.2 := by
  unfold jsSet
  intro p hp
  by_cases hany : m.any (fun q => q.1 == k) = true
  · rw [if_pos hany] at hp
    obtain ⟨q, hq, hqe⟩ := List.mem_map.mp hp
    by_cases hqk : (q.1 == k) = true
    · rw [if_pos hqk] at hqe
      rw [← hqe]
      exact hv
    · rw [if_neg hqk] at hqe
      rw [← hqe]
      exact hm q hq
  · rw [if_neg hany] at hp
    rcases List.mem_append.mp hp with hp2 | hp2
    · exact hm p hp2
    · rw [List.mem_singleton.mp hp2]
      exact hv

theorem accList_pairs_isSome :
    ∀ (l acc : List (String × Option Int)),
      (∀ p ∈ acc, p.2.isSome) → (∀ p ∈ l, p.2.isSome) →
      ∀ p ∈ accList acc l, p.2.isSome := by
  intro l
  induction l with
  | nil => intro acc hacc _ p hp; exact hacc p hp
  | cons q l ih =>
    intro acc hacc hsome
    obtain ⟨d, hd⟩ := Option.isSome_iff_exists.mp (hsome q (List.mem_cons_self q l))
    rw [accList_cons]
    apply ih _ _ (fun p hp => hsome p (List.mem_cons_of_mem q hp))
    rw [hd, upsertAdd_some]
    exact jsSet_forall (fun o => o.isSome = true) acc q.1
      (some (getVal acc q.1 + d)) hacc rfl

theorem daysFold_nodup (F : String → List (String × Option Int)) :
    ∀ (days : List String) (acc : List (String × Option Int)),
      (keysOf acc).Nodup →
      (keysOf (days.foldl (fun a d => accList a (F d)) acc)).Nodup := by
  intro days
  induction days with
  | nil => intro acc h; exact h
  | cons d days ih =>
    intro acc h
    rw [List.foldl_cons]
    exact ih _ (accList_nodup (F d) acc h)

theorem daysFold_pairs_isSome (F : String → List (String × Option Int)) :
    ∀ (days : List String) (acc : List (String × Option Int)),
      (∀ p ∈ acc, p.2.isSome) → (∀ d ∈ days, ∀ p ∈ F d, p.2.isSome) →
      ∀ p ∈ days.foldl (fun a d => accList a (F d)) acc, p.2.isSome := by
  intro days
  induction days with
  | nil => intro acc hacc _ p hp; exact hacc p hp
  | cons d days ih =>
    intro acc hacc h
    rw [List.foldl_cons]
    exact ih _ (accList_pairs_isSome (F d) acc hacc (h d (List.mem_cons_self d days)))
      (fun d2 hd2 => h d2 (List.mem_cons_of_mem d hd2))

theorem jsGet_eq_some_mem {α : Type} (m : List (String × α)) (k : String) (w : α)
    (h : jsGet m k = some w) : ∃ p ∈ m, p.1 = k ∧ p.2 = w := by
  unfold jsGet at h
  cases hfind : m.find? (fun p => p.1 == k) with
  | none => rw [hfind] at h; simp at h
  | some q =>
    rw [hfind] at h
    injection h with h2
    have hq := List.find?_some hfind
    exact ⟨q, List.mem_of_find?_eq_some hfind, beq_iff_eq.mp hq, h2⟩

theorem weeklyTotals_congr (entries1 entries2 : List TimeEntry) :
    ∀ (days : List String) (acc : List (String × Option Int)),
      (∀ d ∈ days, getTotalsByTag entries1 d = getTotalsByTag entries2 d) →
      days.foldl (fun a d => accList a (getTotalsByTag entries1 d)) acc
        = days.foldl (fun a d => accList a (getTotalsByTag entries2 d)) acc := by
  intro days
  induction days with
  | nil => intro acc _; rfl
  | cons d days ih =>
    intro acc h
    rw [List.foldl_cons, List.foldl_cons, h d (List.mem_cons_self d days),
      ih _ (fun d2 hd2 => h d2 (List.mem_cons_of_mem d hd2))]

-- claims C7 and C8

/-- Claim C7: for every entry list and date whose matching entries all
carry numeric durations, the sum of the values of `getTotalsByTag` equals
the sum of `duration` over `getEntriesForDate`: every entry of that date
is counted exactly once in exactly one tag bucket. -/
theorem c7_totals_exhaustive (entries : List TimeEntry) (date : String)
    (h : ∀ e ∈ getEntriesForDate entries date, e.duration.isSome) :
    sumValues (getTotalsByTag entries date)
      = ((getEntriesForDate entries date).map (fun e => e.duration.getD 0)).sum := by
  have hsome2 : ∀ p ∈ (getEntriesForDate entries date).map
      (fun e => (e.tag, e.duration)), p.2.isSome := by
    intro p hp
    obtain ⟨e2, he2, rfl⟩ := List.mem_map.mp hp
    exact h e2 he2
  rw [getTotalsByTag_eq_accList,
    sumValues_accList _ [] (by simp [keysOf]) hsome2, sumValues_nil, zero_add,
    List.map_map]
  rfl

/-- Claim C7 witness: the exhaustiveness theorem applied to three
concrete entries of one date, with the sums evaluating to 130. -/
theorem c7_witness :
    (∀ e ∈ getEntriesForDate
        [⟨1, "2024-01-05", "08:00", "09:10", some 70, "rest", "Sleep"⟩,
         ⟨2, "2024-01-05", "09:10", "09:40", some 30, "walk", "Transit"⟩,
         ⟨3, "2024-01-06", "09:00", "10:00", some 60, "other", "Sleep"⟩,
         ⟨4, "2024-01-05", "10:00", "10:30", some 30, "read", "Sleep"⟩]
        "2024-01-05", e.duration.isSome) ∧
    sumValues (getTotalsByTag
        [⟨1, "2024-01-05", "08:00", "09:10", some 70, "rest", "Sleep"⟩,
         ⟨2, "2024-01-05", "09:10", "09:40", some 30, "walk", "Transit"⟩,
         ⟨3, "2024-01-06", "09:00", "10:00", some 60, "other", "Sleep"⟩,
         ⟨4, "2024-01-05", "10:00", "10:30", some 30, "read", "Sleep"⟩]
        "2024-01-05")
      = ((getEntriesForDate
        [⟨1, "2024-01-05", "08:00", "09:10", some 70, "rest", "Sleep"⟩,
         ⟨2, "2024-01-05", "09:10", "09:40", some 30, "walk", "Transit"⟩,
         ⟨3, "2024-01-06", "09:00", "10:00", some 60, "other", "Sleep"⟩,
         ⟨4, "2024-01-05", "10:00", "10:30", some 30, "read", "Sleep"⟩]
        "2024-01-05").map (fun e => e.duration.getD 0)).sum ∧
    sumValues (getTotalsByTag
        [⟨1, "2024-01-05", "08:00", "09:10", some 70, "rest", "Sleep"⟩,
         ⟨2, "2024-01-05", "09:10", "09:40", some 30, "walk", "Transit"⟩,
         ⟨3, "2024-01-06", "09:00", "10:00", some 60, "other", "Sleep"⟩,
         ⟨4, "2024-01-05", "10:00", "10:30", some 30, "read", "Sleep"⟩]
        "2024-01-05") = 130 :=
  ⟨by decide, c7_totals_exhaustive _ _ (by decide), by decide⟩

/-- Claim C8: the `"Unknown"` bucket of `getTotalsByCategory` holds
exactly the summed minutes of the date's entries whose resolved category
is the sentinel, and every entry with a missing or empty category name
resolves to the sentinel `"Unknown"` (so such entries are counted, not
dropped and not an error). -/
theorem c8_unknown_bucket (entries : List SupEntry) (date : String) :
    getValI (getTotalsByCategory entries date) "Unknown"
      = (((getEntriesForDateSup entries date).filter
          (fun e => resolvedName e == "Unknown")).map
          (fun e => e.duration_minutes.getD 0)).sum ∧
      ∀ e : SupEntry, (e.projectName = none ∨ e.projectName = some "") →
        resolvedName e = "Unknown" := by
  constructor
  · have hbridge : getTotalsByCategory entries date
        = ((getEntriesForDateSup entries date).map
            (fun e => (resolvedName e, e.duration_minutes.getD 0))).foldl
            (fun a p => upsertAddI a p.1 p.2) [] := by
      unfold getTotalsByCategory
      rw [List.foldl_map]
    rw [hbridge, getValI_foldI]
    have hz : getValI [] "Unknown" = 0 := rfl
    rw [hz, zero_add]
    unfold keySumI
    rw [List.filter_map, List.map_map]
    rfl
  · intro e he
    rcases he with he | he <;> simp [resolvedName, he]

/-- Claim C8 witness: the sentinel-bucket theorem applied to entries with
a missing and an empty category name, which contribute 85 minutes to the
`"Unknown"` bucket. -/
theorem c8_witness :
    getValI (getTotalsByCategory
        [⟨1, "2024-01-05T08:00:00.000Z", "2024-01-05T09:00:00.000Z", some 55, none, "a"⟩,
         ⟨2, "2024-01-05T09:00:00.000Z", "2024-01-05T09:30:00.000Z", some 30, some "", "b"⟩,
         ⟨3, "2024-01-05T10:00:00.000Z", "2024-01-05T10:10:00.000Z", some 10,
           some "Productive", "c"⟩]
        "2024-01-05") "Unknown" = 85 ∧
    resolvedName ⟨1, "2024-01-05T08:00:00.000Z", "2024-01-05T09:00:00.000Z", some 55,
      none, "a"⟩ = "Unknown" ∧
    resolvedName ⟨2, "2024-01-05T09:00:00.000Z", "2024-01-05T09:30:00.000Z", some 30,
      some "", "b"⟩ = "Unknown" :=
  ⟨((c8_unknown_bucket
      [⟨1, "2024-01-05T08:00:00.000Z", "2024-01-05T09:00:00.000Z", some 55, none, "a"⟩,
       ⟨2, "2024-01-05T09:00:00.000Z", "2024-01-05T09:30:00.000Z", some 30, some "", "b"⟩,
       ⟨3, "2024-01-05T10:00:00.000Z", "2024-01-05T10:10:00.000Z", some 10,
         some "Productive", "c"⟩]
      "2024-01-05").1).trans (by decide),
    (c8_unknown_bucket [] "x").2 _ (Or.inl rfl),
    (c8_unknown_bucket [] "x").2 _ (Or.inr rfl)⟩
-- claims C4, C5, C9, C10

/-- Claim C4: whenever a tag appears in `getWeeklyAverages` (entries all
carrying numeric durations), its value is exactly the rounded quotient by
7 of that tag's `getTotalsByTag` minutes summed over the seven window
days, regardless of how many of those days have entries for the tag. -/
theorem c4_weekly_average_div7 (entries : List TimeEntry) (today : YMD)
    (t : String) (v : Option Int)
    (hall : ∀ e ∈ entries, e.duration.isSome)
    (hv : jsGet (getWeeklyAverages entries today) t = some v) :
    v = some (jsRoundDiv
      (((last7Days today).map (fun d => getVal (getTotalsByTag entries d) t)).sum)
      7) := by
  have hday_pairs : ∀ d : String, ∀ p ∈ getTotalsByTag entries d, p.2.isSome := by
    intro d
    rw [getTotalsByTag_eq_accList]
    refine accList_pairs_isSome _ [] (by simp) ?_
    intro p hp
    obtain ⟨e2, he2, rfl⟩ := List.mem_map.mp hp
    have he3 := he2
    unfold getEntriesForDate at he3
    exact hall e2 (List.mem_filter.mp he3).1
  have hday_nodup : ∀ d : String, (keysOf (getTotalsByTag entries d)).Nodup := by
    intro d
    rw [getTotalsByTag_eq_accList]
    exact accList_nodup _ [] (by simp [keysOf])
  have hv2 : jsGet
      (((last7Days today).foldl
          (fun acc d => accList acc (getTotalsByTag entries d)) []).foldl
        (fun a p => jsSet a p.1 (p.2.map (fun tot => jsRoundDiv tot 7))) []) t
      = some v := hv
  set wt := (last7Days today).foldl
      (fun acc d => accList acc (getTotalsByTag entries d)) [] with hwtdef
  by_cases hmem : ∃ p ∈ wt, p.1 = t
  · obtain ⟨w, hw⟩ := Option.isSome_iff_exists.mp ((jsGet_isSome_iff wt t).mpr hmem)
    have hwt_nodup : (keysOf wt).Nodup := by
      rw [hwtdef]
      exact daysFold_nodup _ _ _ (by simp [keysOf])
    have h4 := mapFold_get_of_get (fun o => o.map (fun tot => jsRoundDiv tot 7))
      wt [] t w hwt_nodup hw
    rw [h4] at hv2
    injection hv2 with hv3
    obtain ⟨pw, hpw_mem, hpw1, hpw2⟩ := jsGet_eq_some_mem wt t w hw
    have hw_some : w.isSome := by
      rw [← hpw2]
      rw [hwtdef] at hpw_mem
      exact daysFold_pairs_isSome _ (last7Days today) [] (by simp)
        (fun d _ => hday_pairs d) pw hpw_mem
    obtain ⟨xval, hx⟩ := Option.isSome_iff_exists.mp hw_some
    have hgv : getVal wt t = xval := by
      unfold getVal
      rw [hw, hx]
      rfl
    have hsum : getVal wt t
        = ((last7Days today).map
            (fun d => keySum (getTotalsByTag entries d) t)).sum := by
      rw [hwtdef, daysFold_getVal (fun d => getTotalsByTag entries d)
        (last7Days today) [] t (fun d _ => hday_pairs d), getVal_nil, zero_add]
    have hfinal : xval
        = ((last7Days today).map
            (fun d => getVal (getTotalsByTag entries d) t)).sum := by
      rw [← hgv, hsum]
      congr 1
      apply List.map_congr_left
      intro d _
      exact keySum_eq_getVal _ (hday_nodup d) t
    rw [← hv3, hx]
    simp only [Option.map_some']
    rw [hfinal]
  · have hnone2 : ∀ p ∈ wt, (p.1 == t) = false := fun p hp =>
      beq_eq_false_iff_ne.mpr (fun he => hmem ⟨p, hp, he⟩)
    have h3 := mapFold_get_of_not_mem (fun o => o.map (fun tot => jsRoundDiv tot 7))
      wt [] t hnone2
    rw [h3] at hv2
    exact absurd hv2 (by simp [jsGet_nil])

/-- Claim C4 witness: the averaging theorem applied to one entry of 140
minutes of Productive time on one of the seven window days, yielding an
average of 20. -/
theorem c4_witness :
    (∀ e ∈ ([⟨1, "2024-01-07", "10:00", "12:20", some 140, "study", "Productive"⟩] :
        List TimeEntry), e.duration.isSome) ∧
    jsGet (getWeeklyAverages
        [⟨1, "2024-01-07", "10:00", "12:20", some 140, "study", "Productive"⟩]
        ⟨2024, 1, 10⟩) "Productive" = some (some 20) ∧
    (some 20 : Option Int) = some (jsRoundDiv
      (((last7Days ⟨2024, 1, 10⟩).map (fun d => getVal (getTotalsByTag
        [⟨1, "2024-01-07", "10:00", "12:20", some 140, "study", "Productive"⟩] d)
        "Productive")).sum) 7) :=
  ⟨by decide, by decide,
    c4_weekly_average_div7
      [⟨1, "2024-01-07", "10:00", "12:20", some 140, "study", "Productive"⟩]
      ⟨2024, 1, 10⟩ "Productive" (some 20) (by decide) (by decide)⟩

/-- Claim C5: the window `getWeeklyAverages` aggregates over is exactly
the reference date (the explicit clock date `today`) together with the 6
calendar days preceding it: each of the 7 backward steps is in the list,
everything in the list is one of those 7 dates, and entries dated outside
the window never affect the result. -/
theorem c5_window (today : YMD) :
    (∀ i < 7, isoOf (predIter i today) ∈ last7Days today) ∧
    (∀ s ∈ last7Days today, ∃ i < 7, s = isoOf (predIter i today)) ∧
    (∀ (e : TimeEntry) (entries : List TimeEntry), e.date ∉ last7Days today →
      getWeeklyAverages (e :: entries) today = getWeeklyAverages entries today) := by
  refine ⟨?_, ?_, ?_⟩
  · intro i hi
    unfold last7Days
    exact List.mem_map.mpr ⟨i, by simp [List.mem_reverse, List.mem_range, hi], rfl⟩
  · intro s hs
    unfold last7Days at hs
    obtain ⟨i, hi, rfl⟩ := List.mem_map.mp hs
    exact ⟨i, by simpa [List.mem_reverse, List.mem_range] using hi, rfl⟩
  · intro e entries he
    have hcong : ∀ d ∈ last7Days today,
        getTotalsByTag (e :: entries) d = getTotalsByTag entries d := by
      intro d hd
      have hne : e.date ≠ d := fun h => he (h ▸ hd)
      unfold getTotalsByTag getEntriesForDate
      rw [List.filter_cons, if_neg (by simp [hne])]
    show (((last7Days today).foldl
        (fun acc d => accList acc (getTotalsByTag (e :: entries) d)) []).foldl
        (fun a p => jsSet a p.1 (p.2.map (fun tot => jsRoundDiv tot 7))) [])
      = (((last7Days today).foldl
        (fun acc d => accList acc (getTotalsByTag entries d)) []).foldl
        (fun a p => jsSet a p.1 (p.2.map (fun tot => jsRoundDiv tot 7))) [])
    rw [weeklyTotals_congr (e :: entries) entries (last7Days today) [] hcong]

/-- Claim C5 witness: the window theorem applied to the clock date
2024-03-01: stepping back 3 days lands in the window, and an entry dated
2023-12-31 (outside the window) does not change the weekly averages. -/
theorem c5_witness :
    isoOf (predIter 3 ⟨2024, 3, 1⟩) ∈ last7Days ⟨2024, 3, 1⟩ ∧
    (({ id := 1, date := "2023-12-31", start := "10:00", «end» := "11:00",
        duration := some 60, description := "w", tag := "Sleep" } :
        TimeEntry).date ∉ last7Days ⟨2024, 3, 1⟩) ∧
    getWeeklyAverages
        [{ id := 1, date := "2023-12-31", start := "10:00", «end» := "11:00",
           duration := some 60, description := "w", tag := "Sleep" }] ⟨2024, 3, 1⟩
      = getWeeklyAverages [] ⟨2024, 3, 1⟩ :=
  ⟨(c5_window ⟨2024, 3, 1⟩).1 3 (by norm_num), by decide,
    (c5_window ⟨2024, 3, 1⟩).2.2
      { id := 1, date := "2023-12-31", start := "10:00", «end» := "11:00",
        duration := some 60, description := "w", tag := "Sleep" } [] (by decide)⟩

/-- Claim C9, counterexample: `getWeeklyAverages` reads the ambient clock
(`new Date()`); with identical stored entries, evaluating it at the clock
date 2024-01-05 and at 2024-03-05 gives different results, so the current
clock time does influence the output of an aggregator. -/
theorem c9_counterexample :
    getWeeklyAverages
        [⟨1, "2024-01-05", "08:00", "09:10", some 70, "rest", "Sleep"⟩] ⟨2024, 1, 5⟩
      ≠ getWeeklyAverages
        [⟨1, "2024-01-05", "08:00", "09:10", some 70, "rest", "Sleep"⟩]
        ⟨2024, 3, 5⟩ := by
  decide

/-- Claim C9 (amended): each aggregator is a pure function of its
explicit inputs together with the ambient state it reads, and
`calculateDuration` is genuinely deterministic in its two arguments: the
ambient `selectedDate` does not influence it as long as it is a parseable
date, since the date cancels in the difference; only `getWeeklyAverages`
additionally reads the current clock date (see the counterexample). -/
theorem c9_selectedDate_independent (d1 d2 s e : String)
    (h1 : (parseDate d1).isSome) (h2 : (parseDate d2).isSome) :
    calculateDuration d1 s e = calculateDuration d2 s e := by
  obtain ⟨x1, hx1⟩ := Option.isSome_iff_exists.mp h1
  obtain ⟨x2, hx2⟩ := Option.isSome_iff_exists.mp h2
  unfold calculateDuration
  rw [hx1, hx2]
  cases hs : parseTime s with
  | none => rfl
  | some ts =>
    cases he : parseTime e with
    | none => rfl
    | some te =>
      have key : ∀ x : YMD,
          (if (dayNumber x * 86400 + (te : Int)) < dayNumber x * 86400 + (ts : Int)
           then dayNumber x * 86400 + (te : Int) + 86400
           else dayNumber x * 86400 + (te : Int)) - (dayNumber x * 86400 + (ts : Int))
          = (if (te : Int) < (ts : Int) then (te : Int) + 86400 - (ts : Int)
             else (te : Int) - (ts : Int)) := by
        intro x
        split_ifs with hba hb <;> omega
      show some (jsRoundDiv ((if (dayNumber x1 * 86400 + (te : Int))
          < dayNumber x1 * 86400 + (ts : Int)
          then dayNumber x1 * 86400 + (te : Int) + 86400
          else dayNumber x1 * 86400 + (te : Int)) - (dayNumber x1 * 86400 + (ts : Int)))
          60)
        = some (jsRoundDiv ((if (dayNumber x2 * 86400 + (te : Int))
          < dayNumber x2 * 86400 + (ts : Int)
          then dayNumber x2 * 86400 + (te : Int) + 86400
          else dayNumber x2 * 86400 + (te : Int)) - (dayNumber x2 * 86400 + (ts : Int)))
          60)
      rw [key x1, key x2]

/-- Claim C9 witness: calculateDuration agrees across two different valid
ambient dates at the same pair of time arguments. -/
theorem c9_witness :
    (parseDate "2024-01-01").isSome ∧ (parseDate "2025-06-30").isSome ∧
    calculateDuration "2024-01-01" "10:00" "11:30"
      = calculateDuration "2025-06-30" "10:00" "11:30" :=
  ⟨by decide, by decide,
    c9_selectedDate_independent "2024-01-01" "2025-06-30" "10:00" "11:30"
      (by decide) (by decide)⟩

/-- Claim C10: after a successful `addEntry` (no form field empty), the
stored entry list is pairwise non-decreasing in the combined
date-plus-start-time timestamp, whatever order the previous list had; the
hypothesis that every timestamp parses reflects that the JavaScript sort
is only specified for a comparator that never returns `NaN`. -/
theorem c10_addEntry_sorted (prev : List TimeEntry) (d s e desc tg : String)
    (id : Int) (hs : s ≠ "") (he : e ≠ "") (hdesc : desc ≠ "") (htg : tg ≠ "")
    (_hts : ∀ x ∈ (prev ++ [newEntryOf d s e desc tg id]), (entryTs x).isSome) :
    (addEntry prev d s e desc tg id).Pairwise (fun a b => tsKey a ≤ tsKey b) := by
  unfold addEntry
  rw [if_neg (by simp [hs, he, hdesc, htg])]
  have hsorted := @List.sorted_mergeSort TimeEntry
    (fun a b => decide (tsKey a ≤ tsKey b))
    (fun a b c hab hbc => by
      simp only [decide_eq_true_eq] at *
      omega)
    (fun a b => by
      simp only [Bool.or_eq_true, decide_eq_true_eq]
      omega)
    (prev ++ [newEntryOf d s e desc tg id])
  exact hsorted.imp (fun h => of_decide_eq_true h)

/-- Claim C10 witness: the sortedness theorem applied to a previous list
given out of chronological order plus a new entry. -/
theorem c10_witness :
    (addEntry
      [⟨2, "2024-01-04", "09:00", "10:00", some 60, "b", "Sleep"⟩,
       ⟨1, "2024-01-02", "08:00", "09:00", some 60, "a", "Sleep"⟩]
      "2024-01-03" "07:30" "08:00" "c" "Transit" 5).Pairwise
      (fun a b => tsKey a ≤ tsKey b) :=
  c10_addEntry_sorted
    [⟨2, "2024-01-04", "09:00", "10:00", some 60, "b", "Sleep"⟩,
     ⟨1, "2024-01-02", "08:00", "09:00", some 60, "a", "Sleep"⟩]
    "2024-01-03" "07:30" "08:00" "c" "Transit" 5
    (by decide) (by decide) (by decide) (by decide) (by decide)
